import Mathlib

/-!
# Verification of the malloclab segregated-list allocator

Shallow embedding of `mm.c` (the segregated free-list variant; the single
explicit-list variant of `malloclab-handout/mm.c` shares the same logic
modulo the class index).  The heap is byte-addressed: `mem : Nat → Nat`
maps the byte address of each 8-byte word to its contents.  All pointer
arithmetic is carried out in bytes exactly as in the source.  A header or
footer word stores the C bitfield `{allocated : 1; block_size : 31}` as
`allocated + 2 * (block_size % 2^31)`; the 32 padding bits are never read
by the source and are not modelled.  `mem_sbrk` success and failure is
driven by an oracle list of booleans carried in the state (the heap
extender is an external collaborator in the design); the C failure
sentinel `(void*)-1` is modelled by the address `2^64 - 1`.
-/

/-- CHUNKSIZE (1 << 16): initial heap size in bytes. -/
def CHUNKSIZE : Nat := 65536

/-- OVERHEAD: header size + footer size in bytes (two 8-byte words). -/
def OVERHEAD : Nat := 16

/-- MIN_BLOCK_SIZE: minimum block size kept in a free list. -/
def MIN_BLOCK_SIZE : Nat := 32

/-- TOTALNUMLIST: number of segregated free lists. -/
def TOTALNUMLIST : Nat := 11

/-- The C failure sentinel `(void*)-1` returned by `mem_sbrk`. -/
def FAILADDR : Nat := 2 ^ 64 - 1

/-- Encode a header/footer word: bit 0 is the allocated flag, bits 1..31
the block size (the 31-bit bitfield truncates the stored size). -/
def mkHdr (alloc : Bool) (size : Nat) : Nat :=
  (if alloc then 1 else 0) + 2 * (size % 2 ^ 31)

/-- The allocated bit of a header/footer word. -/
def hdrAlloc (w : Nat) : Bool := w % 2 = 1

/-- The block_size field of a header/footer word. -/
def hdrSize (w : Nat) : Nat := (w / 2) % 2 ^ 31

/-- Store into the `block_size` bitfield, keeping the allocated bit
(one C bitfield assignment is a read-modify-write of the word). -/
def setHdrSize (w : Nat) (size : Nat) : Nat := mkHdr (hdrAlloc w) size

/-- Store into the `allocated` bitfield, keeping the size bits. -/
def setHdrAlloc (w : Nat) (alloc : Bool) : Nat := mkHdr alloc (hdrSize w)

/-- Allocator state: word-granular byte-addressed memory, the current
break (total heap bytes obtained from the extender), the two globals
`segListHead` and `prologue`, and the extender oracle.  An exhausted
oracle means the extender keeps succeeding. -/
structure AState where
  mem : Nat → Nat
  brk : Nat
  segListHead : Nat
  prologue : Nat
  oracle : List Bool

/-- Read the 8-byte word at byte address `a`. -/
def memGet (s : AState) (a : Nat) : Nat := s.mem a

/-- Write the 8-byte word at byte address `a`. -/
def memSet (s : AState) (a : Nat) (v : Nat) : AState :=
  { s with mem := fun x => if x = a then v else s.mem x }

/-- mem_sbrk: grow the heap by `bytes` and return the base of the fresh
region, or return `FAILADDR` when the extender refuses (first oracle
entry `false`).  Each call consumes one oracle entry. -/
def mem_sbrk (s : AState) (bytes : Nat) : Nat × AState :=
  match s.oracle with
  | [] => (s.brk, { s with brk := s.brk + bytes })
  | ok :: rest =>
      if ok then (s.brk, { s with brk := s.brk + bytes, oracle := rest })
      else (FAILADDR, { s with oracle := rest })

/-- Floor base-2 logarithm with structural fuel (one unit per bit of a
32-bit word): `log2fuel 32 n` is the floor log2 of any `n < 2^32`. -/
def log2fuel : Nat → Nat → Nat
  | 0, _ => 0
  | fuel + 1, n => if 2 ≤ n then log2fuel fuel (n / 2) + 1 else 0

/-- logBaseTwo: `31 - __builtin_clz(input)`, i.e. the floor base-2
logarithm of a 32-bit value (undefined at 0 in C; the model returns
0 there). -/
def logBaseTwo (input : Nat) : Nat := log2fuel 32 input

/-- segListIndex: size-class index, `logBaseTwo(input) - 5` in signed int
arithmetic, capped above at `TOTALNUMLIST - 1`.  There is no lower
clamp in the source, so the result is negative for `input < 32`. -/
def segListIndex (input : Nat) : Int :=
  let index : Int := (logBaseTwo input : Int) - 5
  if index < (TOTALNUMLIST : Int) - 1 then index else (TOTALNUMLIST : Int) - 1

/-- Byte address of the list-head slot for class `index`
(`segListHead[index]`, an array of 8-byte pointers). -/
def slotAddr (s : AState) (index : Nat) : Nat := s.segListHead + 8 * index

/-- list_push: insert `newblock` at the head of list `index` (LIFO).
A free block's `next` link lives at offset 8 and its `prev` link at
offset 16 from the block header; the null pointer is 0. -/
def list_push (s : AState) (newblock : Nat) (index : Nat) : AState :=
  let head := memGet s (slotAddr s index)
  if head = 0 then
    let s := memSet s (slotAddr s index) newblock
    let s := memSet s (newblock + 16) 0
    memSet s (newblock + 8) 0
  else
    let s := memSet s (newblock + 8) head
    let s := memSet s (newblock + 16) 0
    let s := memSet s (head + 16) newblock
    memSet s (slotAddr s index) newblock

/-- list_pop: unlink `removeblock` from list `index` using its in-band
links, with the source's four cases (sole element, first, last,
middle). -/
def list_pop (s : AState) (removeblock : Nat) (index : Nat) : AState :=
  let nxt := memGet s (removeblock + 8)
  let prv := memGet s (removeblock + 16)
  if prv = 0 ∧ nxt = 0 then
    memSet s (slotAddr s index) 0
  else if memGet s (slotAddr s index) = removeblock then
    let s := memSet s (slotAddr s index) nxt
    memSet s (nxt + 16) 0
  else if nxt = 0 then
    memSet s (prv + 8) 0
  else
    let s := memSet s (nxt + 16) prv
    memSet s (prv + 8) nxt

/-- get_footer: byte address of the footer of the block at `block`,
`(void*)block + block->block_size - sizeof(footer_t)` (reads the
block's current header). -/
def get_footer (s : AState) (block : Nat) : Nat :=
  block + hdrSize (memGet s block) - 8

/-- Walk the heap from block address `a`, collecting
(address, block_size, allocated) triples until the zero-sized epilogue
or the fuel runs out (the source's `mm_checkheap` traversal). -/
def heapWalk (s : AState) : Nat → Nat → List (Nat × Nat × Bool)
  | 0, _ => []
  | fuel + 1, a =>
      let w := memGet s a
      if hdrSize w = 0 then [(a, 0, hdrAlloc w)]
      else (a, hdrSize w, hdrAlloc w) :: heapWalk s fuel (a + hdrSize w)

/-- coalesce: boundary-tag coalescing of the just-freed `block` with up
to two free neighbors, with the source's four cases.  Every pop/push
index is `segListIndex` of the block's size read at that program
point, and in case 4 `prev_block` is re-derived from the previous
footer after the pops, exactly as in the source. -/
def coalesce (s : AState) (block : Nat) : Nat × AState :=
  let prev_footer := block - 8
  let next_header := block + hdrSize (memGet s block)
  let prev_alloc := hdrAlloc (memGet s prev_footer)
  let next_alloc := hdrAlloc (memGet s next_header)
  let next_block := next_header
  let prev_block := prev_footer - hdrSize (memGet s prev_footer) + 8
  if prev_alloc ∧ next_alloc then
    (block, s)
  else if prev_alloc ∧ ¬next_alloc then
    let s := list_pop s block (segListIndex (hdrSize (memGet s block))).toNat
    let s := list_pop s next_block (segListIndex (hdrSize (memGet s next_block))).toNat
    let s := memSet s block
      (setHdrSize (memGet s block) (hdrSize (memGet s block) + hdrSize (memGet s next_header)))
    let s := memSet s (get_footer s block)
      (setHdrSize (memGet s (get_footer s block)) (hdrSize (memGet s block)))
    let s := list_push s block (segListIndex (hdrSize (memGet s block))).toNat
    (block, s)
  else if ¬prev_alloc ∧ next_alloc then
    let s := list_pop s block (segListIndex (hdrSize (memGet s block))).toNat
    let s := list_pop s prev_block (segListIndex (hdrSize (memGet s prev_block))).toNat
    let s := memSet s prev_block
      (setHdrSize (memGet s prev_block) (hdrSize (memGet s prev_block) + hdrSize (memGet s block)))
    let s := memSet s (get_footer s prev_block)
      (setHdrSize (memGet s (get_footer s prev_block)) (hdrSize (memGet s prev_block)))
    let block := prev_block
    let s := list_push s block (segListIndex (hdrSize (memGet s block))).toNat
    (block, s)
  else
    let s := list_pop s prev_block (segListIndex (hdrSize (memGet s prev_block))).toNat
    let s := list_pop s block (segListIndex (hdrSize (memGet s block))).toNat
    let s := list_pop s next_block (segListIndex (hdrSize (memGet s next_block))).toNat
    let prev_block2 := prev_footer - hdrSize (memGet s prev_footer) + 8
    let s := memSet s prev_block2
      (setHdrSize (memGet s prev_block2)
        (hdrSize (memGet s prev_block2) + (hdrSize (memGet s block) + hdrSize (memGet s next_header))))
    let s := memSet s (get_footer s prev_block2)
      (setHdrSize (memGet s (get_footer s prev_block2)) (hdrSize (memGet s prev_block2)))
    let block := prev_block2
    let s := list_push s block (segListIndex (hdrSize (memGet s block))).toNat
    (block, s)

/-- extend_heap: grow the heap by `words * 8` bytes (a uint32), reuse
the old epilogue word as the header of a fresh free block, write its
footer and a new epilogue, push it onto its class list, and
optionally coalesce.  Returns none when the extender fails or the
uint32 byte count is zero (the failed `mem_sbrk` call is skipped by
short-circuit evaluation when the byte count is zero). -/
def extend_heap (s : AState) (words : Nat) (willCoalesce : Bool) : Option Nat × AState :=
  let size := (words * 8) % 2 ^ 32
  if size = 0 then (none, s)
  else
    match mem_sbrk s size with
    | (ret, s) =>
      if ret = FAILADDR then (none, s)
      else
        let block := ret - 8
        let s := memSet s block (setHdrAlloc (memGet s block) false)
        let s := memSet s block (setHdrSize (memGet s block) size)
        let s := memSet s (get_footer s block)
          (setHdrAlloc (memGet s (get_footer s block)) false)
        let s := memSet s (get_footer s block)
          (setHdrSize (memGet s (get_footer s block)) (hdrSize (memGet s block)))
        let new_epilogue := get_footer s block + 8
        let s := memSet s new_epilogue (setHdrAlloc (memGet s new_epilogue) true)
        let s := memSet s new_epilogue (setHdrSize (memGet s new_epilogue) 0)
        let s := list_push s block (segListIndex (hdrSize (memGet s block))).toNat
        if willCoalesce then
          let r := coalesce s block
          (some r.1, r.2)
        else (some block, s)

/-- place: allocate `asize` bytes at the start of free block `block`,
splitting off the remainder as a fresh free block when it is at least
MIN_BLOCK_SIZE (the subtraction `block->block_size - asize` is the
source's size_t arithmetic, modelled mod 2^64). -/
def place (s : AState) (block : Nat) (asize : Nat) : AState :=
  let split_size := (hdrSize (memGet s block) + 2 ^ 64 - asize % 2 ^ 64) % 2 ^ 64
  if split_size ≥ MIN_BLOCK_SIZE then
    let s := list_pop s block (segListIndex (hdrSize (memGet s block))).toNat
    let s := memSet s block (setHdrSize (memGet s block) asize)
    let s := memSet s block (setHdrAlloc (memGet s block) true)
    let s := memSet s (get_footer s block)
      (setHdrSize (memGet s (get_footer s block)) asize)
    let s := memSet s (get_footer s block)
      (setHdrAlloc (memGet s (get_footer s block)) true)
    let new_block := block + hdrSize (memGet s block)
    let s := memSet s new_block (setHdrSize (memGet s new_block) split_size)
    let s := memSet s new_block (setHdrAlloc (memGet s new_block) false)
    let s := memSet s (get_footer s new_block)
      (setHdrSize (memGet s (get_footer s new_block)) split_size)
    let s := memSet s (get_footer s new_block)
      (setHdrAlloc (memGet s (get_footer s new_block)) false)
    list_push s new_block (segListIndex (hdrSize (memGet s new_block))).toNat
  else
    let s := list_pop s block (segListIndex (hdrSize (memGet s block))).toNat
    let s := memSet s block (setHdrAlloc (memGet s block) true)
    memSet s (get_footer s block) (setHdrAlloc (memGet s (get_footer s block)) true)

/-- Inner loop of find_fit: follow `next` links through list `i`
looking for a free block of size at least `asize`; the fuel bounds
the pointer chase (any well-formed list is shorter than the heap). -/
def findFitInList (s : AState) (asize : Nat) : Nat → Nat → Option Nat
  | 0, _ => none
  | _, 0 => none
  | fuel + 1, b =>
      if ¬hdrAlloc (memGet s b) ∧ asize ≤ hdrSize (memGet s b) then some b
      else findFitInList s asize fuel (memGet s (b + 8))

/-- Outer loop of find_fit over classes `i, i+1, ..., TOTALNUMLIST-1`. -/
def findFitFrom (s : AState) (asize : Nat) : Nat → Nat → Option Nat
  | 0, _ => none
  | classesLeft + 1, i =>
      match findFitInList s asize (s.brk / 8 + 1) (memGet s (slotAddr s i)) with
      | some b => some b
      | none => findFitFrom s asize classesLeft (i + 1)

/-- find_fit: first-fit search starting at the class of `asize`
(callers always pass `asize ≥ MIN_BLOCK_SIZE`, so the signed class
index is nonnegative). -/
def find_fit (s : AState) (asize : Nat) : Option Nat :=
  let sizeIndex := (segListIndex asize).toNat
  findFitFrom s asize (TOTALNUMLIST - sizeIndex) sizeIndex

/-- mm_free: clear the allocated bit on header and footer, push the
block onto its class list, and coalesce. -/
def mm_free (s : AState) (payload : Nat) : AState :=
  let block := payload - 8
  let s := memSet s block (setHdrAlloc (memGet s block) false)
  let s := memSet s (get_footer s block) (setHdrAlloc (memGet s (get_footer s block)) false)
  let freeIndex := (segListIndex (hdrSize (memGet s block))).toNat
  let s := list_push s block freeIndex
  (coalesce s block).2

/-- Adjusted block size of mm_malloc: `size += OVERHEAD` in size_t,
`asize = ((size + 7) >> 3) << 3` assigned to a uint32, raised to at
least MIN_BLOCK_SIZE. -/
def codeAsize (u : Nat) : Nat :=
  let size := (u + OVERHEAD) % 2 ^ 64
  let asize := ((size + 7) % 2 ^ 64 / 8 * 8) % 2 ^ 32
  if asize < MIN_BLOCK_SIZE then MIN_BLOCK_SIZE else asize

/-- Tail of mm_malloc after the small-request fast path: first-fit
search, then extension by the larger of `asize` and CHUNKSIZE with
coalescing, null when the extender fails. -/
def malloc_slow (s : AState) (asize : Nat) : Option Nat × AState :=
  match find_fit s asize with
  | some block => (some (block + 8), place s block asize)
  | none =>
      let extendsize := if asize > CHUNKSIZE then asize else CHUNKSIZE
      match extend_heap s (extendsize / 8) true with
      | (some block, s) => (some (block + 8), place s block asize)
      | (none, s) => (none, s)

/-- mm_malloc: null on a zero request; otherwise adjust the size and
try the small-request fast path (extend by `asize` without
coalescing), falling through to the first-fit search and the
CHUNKSIZE extension. -/
def mm_malloc (s : AState) (size : Nat) : Option Nat × AState :=
  if size = 0 then (none, s)
  else
    let asize := codeAsize size
    if asize ≤ 96 then
      match extend_heap s (asize / 8) false with
      | (some block, s) => (some (block + 8), place s block asize)
      | (none, s) => malloc_slow s asize
    else malloc_slow s asize

/-- Zero out the `n` seglist head slots starting at base address
`base` (the initialization loop of mm_init), in ascending order. -/
def zeroSlots (s : AState) (base : Nat) : Nat → AState
  | 0 => s
  | n + 1 => memSet (zeroSlots s base n) (base + 8 * n) 0

/-- mm_init: obtain the seglist head array (this first `mem_sbrk` is
not checked for failure), null its slots, then obtain CHUNKSIZE
bytes, failing with -1 only when that second call fails; build the
prologue, one free block of `CHUNKSIZE - OVERHEAD` bytes registered
as the sole member of the last class list, and the epilogue. -/
def mm_init (s : AState) : Int × AState :=
  match mem_sbrk s (8 * TOTALNUMLIST) with
  | (ret1, s) =>
    let s := { s with segListHead := ret1 }
    let s := zeroSlots s ret1 TOTALNUMLIST
    match mem_sbrk s CHUNKSIZE with
    | (ret2, s) =>
      if ret2 = FAILADDR then (-1, s)
      else
        let s := { s with prologue := ret2 }
        let prologue := ret2
        let s := memSet s prologue (setHdrAlloc (memGet s prologue) true)
        let s := memSet s prologue (setHdrSize (memGet s prologue) 8)
        let init_block := prologue + 8
        let s := memSet s init_block (setHdrAlloc (memGet s init_block) false)
        let s := memSet s init_block (setHdrSize (memGet s init_block) (CHUNKSIZE - OVERHEAD))
        let s := memSet s (init_block + 8) 0
        let s := memSet s (init_block + 16) 0
        let s := memSet s (get_footer s init_block)
          (setHdrAlloc (memGet s (get_footer s init_block)) false)
        let s := memSet s (get_footer s init_block)
          (setHdrSize (memGet s (get_footer s init_block)) (hdrSize (memGet s init_block)))
        let s := memSet s (slotAddr s (TOTALNUMLIST - 1)) init_block
        let epilogue := init_block + hdrSize (memGet s init_block)
        let s := memSet s epilogue (setHdrAlloc (memGet s epilogue) true)
        let s := memSet s epilogue (setHdrSize (memGet s epilogue) 0)
        (0, s)

/-- Copy `n` words from `src` to `dst` reading from the pre-copy
memory (memcpy with non-overlapping or snapshot semantics). -/
def copyWords (s : AState) (dst src : Nat) : Nat → AState
  | 0 => s
  | n + 1 => memSet (copyWords s dst src n) (dst + 8 * n) (memGet s (src + 8 * n))

/-- memcpy of `n` bytes at the model's word granularity: every word
that the byte range touches is copied whole (the trailing partial
word, if any, is copied in full). -/
def memcpyBytes (s : AState) (dst src n : Nat) : AState :=
  copyWords s dst src ((n + 7) / 8)

/-- mm_realloc: allocate `size` bytes, abort the process with a
diagnostic if that fails (modelled as `Except.error`), copy
`min(size, old whole-block size)` bytes from the old payload, free
the old block and return the new payload. -/
def mm_realloc (s : AState) (ptr size : Nat) : Except String (Nat × AState) :=
  match mm_malloc s size with
  | (none, _) => Except.error "ERROR: mm_malloc failed in mm_realloc"
  | (some newp, s) =>
      let block := ptr - 8
      let copySize := hdrSize (memGet s block)
      let copySize := if size < copySize then size else copySize
      let s := memcpyBytes s newp ptr copySize
      let s := mm_free s ptr
      Except.ok (newp, s)

/-- align8 from the spec: round `n` up to a multiple of 8. -/
def align8 (n : Nat) : Nat := (n + 7) / 8 * 8

/-- Spec-side adjusted request size as the claims state it:
`align8(u + OVERHEAD)` raised to at least MIN_BLOCK_SIZE, with no
32-bit truncation (for contrast with `codeAsize`). -/
def specAsize (u : Nat) : Nat := max MIN_BLOCK_SIZE (align8 (u + OVERHEAD))

/-- Spec-side size-class function as claim C6 states it:
`min(C-1, log2 s - 5)` clamped below at 0 (for contrast with
`segListIndex`, which has no lower clamp). -/
def specClass (s : Nat) : Int :=
  max 0 (min ((TOTALNUMLIST : Int) - 1) ((Nat.log2 s : Int) - 5))

/-- Number of payload bytes of the allocated block whose payload starts
at `p`: the block size recorded in its header minus the header and
footer overhead. -/
def payloadBytes (s : AState) (p : Nat) : Nat :=
  hdrSize (memGet s (p - 8)) - OVERHEAD

/-- A fresh machine state: zeroed memory, empty heap, extender that
always succeeds. -/
def freshState : AState := ⟨fun _ => 0, 0, 0, 0, []⟩

/-- A small well-formed heap used for concrete instantiations: the
seglist head array at 0, prologue at 88, one free 32-byte block at 96
(sole member of class list 0, null links, matching footer at 120),
epilogue at 128; break 136; extender always succeeds. -/
def tinyState : AState :=
  ⟨fun a =>
    if a = 0 then 96
    else if a = 88 then mkHdr true 8
    else if a = 96 then mkHdr false 32
    else if a = 120 then mkHdr false 32
    else if a = 128 then mkHdr true 0
    else 0,
   136, 0, 88, []⟩

/-- A small heap with two adjacent free 32-byte blocks (just after
mm_free cleared the allocated bit of the first one and pushed it):
prologue at 88, free blocks at 96 and 128 both in class list 0
(96 at the head, linked to 128), epilogue at 160.  Used to exercise
coalescing case 2 concretely. -/
def twoFreeState : AState :=
  ⟨fun a =>
    if a = 0 then 96
    else if a = 88 then mkHdr true 8
    else if a = 96 then mkHdr false 32
    else if a = 104 then 128
    else if a = 120 then mkHdr false 32
    else if a = 128 then mkHdr false 32
    else if a = 144 then 96
    else if a = 152 then mkHdr false 32
    else if a = 160 then mkHdr true 0
    else 0,
   168, 0, 88, []⟩

/-- The place routine as claim C3 states it, with the residual
`r = size(b) - asize` and all sizes taken at entry: if `r` is at
least MIN_BLOCK_SIZE, pop `b` from class(size(b)), write an
allocated header and footer of size `asize`, build a free block of
size `r` at offset `asize` with matching header and footer and push
it onto class(r); otherwise pop `b` and set the allocated bit on its
header and footer, keeping its full size. -/
def placeSpec (s : AState) (b asize : Nat) : AState :=
  let size := hdrSize (memGet s b)
  let r := size - asize
  if MIN_BLOCK_SIZE ≤ r then
    let s := list_pop s b (segListIndex size).toNat
    let s := memSet s b (mkHdr true asize)
    let s := memSet s (b + asize - 8) (mkHdr true asize)
    let s := memSet s (b + asize) (mkHdr false r)
    let s := memSet s (b + asize + r - 8) (mkHdr false r)
    list_push s (b + asize) (segListIndex r).toNat
  else
    let s := list_pop s b (segListIndex size).toNat
    let s := memSet s b (setHdrAlloc (memGet s b) true)
    memSet s (b + size - 8) (setHdrAlloc (memGet s (b + size - 8)) true)

/-- The coalescing engine as claim C2 states it: `P` and `N` are read
off the boundary tags at entry, the four cases pop exactly the free
blocks among `P`, `b`, `N` (in the source's order), grow the
surviving block by the absorbed sizes, write the surviving footer,
and push the merged block, every pop and push using the class of the
block's size at that instant (which, at entry sizes, is the entry
class). -/
def coalesceSpec (s : AState) (b : Nat) : Nat × AState :=
  let sizeB := hdrSize (memGet s b)
  let psize := hdrSize (memGet s (b - 8))
  let P := b - psize
  let N := b + sizeB
  let sizeN := hdrSize (memGet s N)
  let p_alloc := hdrAlloc (memGet s (b - 8))
  let n_alloc := hdrAlloc (memGet s N)
  if p_alloc ∧ n_alloc then (b, s)
  else if p_alloc ∧ ¬n_alloc then
    let s := list_pop s b (segListIndex sizeB).toNat
    let s := list_pop s N (segListIndex sizeN).toNat
    let s := memSet s b (setHdrSize (memGet s b) (sizeB + sizeN))
    let s := memSet s (b + (sizeB + sizeN) - 8)
      (setHdrSize (memGet s (b + (sizeB + sizeN) - 8)) (sizeB + sizeN))
    let s := list_push s b (segListIndex (sizeB + sizeN)).toNat
    (b, s)
  else if ¬p_alloc ∧ n_alloc then
    let s := list_pop s b (segListIndex sizeB).toNat
    let s := list_pop s P (segListIndex psize).toNat
    let s := memSet s P (setHdrSize (memGet s P) (psize + sizeB))
    let s := memSet s (P + (psize + sizeB) - 8)
      (setHdrSize (memGet s (P + (psize + sizeB) - 8)) (psize + sizeB))
    let s := list_push s P (segListIndex (psize + sizeB)).toNat
    (P, s)
  else
    let s := list_pop s P (segListIndex psize).toNat
    let s := list_pop s b (segListIndex sizeB).toNat
    let s := list_pop s N (segListIndex sizeN).toNat
    let s := memSet s P (setHdrSize (memGet s P) (psize + (sizeB + sizeN)))
    let s := memSet s (P + (psize + (sizeB + sizeN)) - 8)
      (setHdrSize (memGet s (P + (psize + (sizeB + sizeN)) - 8)) (psize + (sizeB + sizeN)))
    let s := list_push s P (segListIndex (psize + (sizeB + sizeN))).toNat
    (P, s)


/-- Local well-formedness assumptions under which the coalescing
engine matches claim C2's description: the freed block is a real
block (size at least MIN_BLOCK_SIZE), the previous block lies inside
the heap, the boundary tags of the participating free blocks agree,
the merged sizes fit the 31-bit size field, and the list unlinkings
do not disturb the headers and boundary tags of `P`, `b` and `N` —
all of which hold whenever the heap and its free lists are
well-formed. -/
def CoalesceAssumptions (s : AState) (b : Nat) : Prop :=
  let sizeB := hdrSize (memGet s b)
  let psize := hdrSize (memGet s (b - 8))
  let N := b + sizeB
  let sizeN := hdrSize (memGet s N)
  let P := b - psize
  let pa := hdrAlloc (memGet s (b - 8))
  let na := hdrAlloc (memGet s N)
  MIN_BLOCK_SIZE ≤ sizeB ∧ psize + 8 ≤ b ∧
  (pa = true → na = false →
    (let c1 := list_pop s b (segListIndex sizeB).toNat
     let c2 := list_pop c1 N (segListIndex sizeN).toNat
     hdrSize (memGet c1 N) = sizeN ∧ memGet c2 b = memGet s b ∧
     hdrSize (memGet c2 N) = sizeN ∧ sizeB + sizeN < 2 ^ 31)) ∧
  (pa = false → na = true →
    MIN_BLOCK_SIZE ≤ psize ∧ hdrSize (memGet s P) = psize ∧
    (let c1 := list_pop s b (segListIndex sizeB).toNat
     let c2 := list_pop c1 P (segListIndex psize).toNat
     hdrSize (memGet c1 P) = psize ∧ memGet c2 P = memGet s P ∧
     hdrSize (memGet c2 b) = sizeB ∧ psize + sizeB < 2 ^ 31)) ∧
  (pa = false → na = false →
    MIN_BLOCK_SIZE ≤ psize ∧ hdrSize (memGet s P) = psize ∧
    (let c1 := list_pop s P (segListIndex psize).toNat
     let c2 := list_pop c1 b (segListIndex sizeB).toNat
     let c3 := list_pop c2 N (segListIndex sizeN).toNat
     hdrSize (memGet c1 b) = sizeB ∧ hdrSize (memGet c2 N) = sizeN ∧
     hdrSize (memGet c3 (b - 8)) = psize ∧ memGet c3 P = memGet s P ∧
     hdrSize (memGet c3 b) = sizeB ∧ hdrSize (memGet c3 N) = sizeN ∧
     psize + (sizeB + sizeN) < 2 ^ 31))


/-- Sanity of a block about to be placed: the seglist array sits at
the bottom of the heap below the block, and no free-list link or
list head aliases the block's header (conditions that hold whenever
the heap and free lists are well-formed). -/
def PlaceSane (s : AState) (b : Nat) : Prop :=
  s.segListHead = 0 ∧ 88 ≤ b ∧
  memGet s (b + 8) ≠ b - 16 ∧
  memGet s (b + 16) ≠ b - 8 ∧ memGet s (b + 16) ≠ b - 16 ∧
  (∀ k, k ≤ 10 → memGet s (8 * k) ≠ b - 16)

/-- The (state, block) pair that the slow path of `mm_malloc` hands to
`place`, if any: the first-fit hit, or the block produced by the
coalescing extension (mirrors the control flow of `malloc_slow`). -/
def slowPlaceArgs (s : AState) (asize : Nat) : Option (AState × Nat) :=
  match find_fit s asize with
  | some block => some (s, block)
  | none =>
      let extendsize := if asize > CHUNKSIZE then asize else CHUNKSIZE
      match extend_heap s (extendsize / 8) true with
      | (some block, s) => some (s, block)
      | (none, _) => none

/-- The (state, block) pair that `mm_malloc` hands to `place`, if any:
the fresh fast-path block, or the slow path's pair after the
fast-path extension was skipped or failed (mirrors the control flow
of `mm_malloc`). -/
def mallocPlaceArgs (s : AState) (size : Nat) : Option (AState × Nat) :=
  if size = 0 then none
  else
    let asize := codeAsize size
    if asize ≤ 96 then
      match extend_heap s (asize / 8) false with
      | (some block, s) => some (s, block)
      | (none, s) => slowPlaceArgs s asize
    else slowPlaceArgs s asize

/-! ## Basic lemmas about the state primitives -/

theorem memGet_memSet (s : AState) (x v a : Nat) :
    memGet (memSet s x v) a = if a = x then v else memGet s a := rfl

@[simp] theorem memSet_brk (s : AState) (a v : Nat) : (memSet s a v).brk = s.brk := rfl

@[simp] theorem memSet_segListHead (s : AState) (a v : Nat) :
    (memSet s a v).segListHead = s.segListHead := rfl

@[simp] theorem memSet_prologue (s : AState) (a v : Nat) :
    (memSet s a v).prologue = s.prologue := rfl

@[simp] theorem memSet_oracle (s : AState) (a v : Nat) :
    (memSet s a v).oracle = s.oracle := rfl

theorem memSet_override (s : AState) (a v w : Nat) :
    memSet (memSet s a v) a w = memSet s a w := by
  unfold memSet
  congr 1
  funext x
  by_cases h : x = a <;> simp [h]

@[simp] theorem list_push_brk (s : AState) (nb i : Nat) :
    (list_push s nb i).brk = s.brk := by
  unfold list_push
  dsimp only
  split <;> rfl

@[simp] theorem list_push_segListHead (s : AState) (nb i : Nat) :
    (list_push s nb i).segListHead = s.segListHead := by
  unfold list_push
  dsimp only
  split <;> rfl

@[simp] theorem list_push_prologue (s : AState) (nb i : Nat) :
    (list_push s nb i).prologue = s.prologue := by
  unfold list_push
  dsimp only
  split <;> rfl

@[simp] theorem list_push_oracle (s : AState) (nb i : Nat) :
    (list_push s nb i).oracle = s.oracle := by
  unfold list_push
  dsimp only
  split <;> rfl

@[simp] theorem list_pop_brk (s : AState) (rb i : Nat) :
    (list_pop s rb i).brk = s.brk := by
  unfold list_pop
  dsimp only
  split
  · rfl
  · split
    · rfl
    · split <;> rfl

@[simp] theorem list_pop_segListHead (s : AState) (rb i : Nat) :
    (list_pop s rb i).segListHead = s.segListHead := by
  unfold list_pop
  dsimp only
  split
  · rfl
  · split
    · rfl
    · split <;> rfl

@[simp] theorem list_pop_oracle (s : AState) (rb i : Nat) :
    (list_pop s rb i).oracle = s.oracle := by
  unfold list_pop
  dsimp only
  split
  · rfl
  · split
    · rfl
    · split <;> rfl

@[simp] theorem zeroSlots_brk (s : AState) (b n : Nat) : (zeroSlots s b n).brk = s.brk := by
  induction n with
  | zero => rfl
  | succ n ih => simp [zeroSlots, ih]

@[simp] theorem zeroSlots_segListHead (s : AState) (b n : Nat) :
    (zeroSlots s b n).segListHead = s.segListHead := by
  induction n with
  | zero => rfl
  | succ n ih => simp [zeroSlots, ih]

@[simp] theorem zeroSlots_oracle (s : AState) (b n : Nat) :
    (zeroSlots s b n).oracle = s.oracle := by
  induction n with
  | zero => rfl
  | succ n ih => simp [zeroSlots, ih]

theorem hdrSize_lt (w : Nat) : hdrSize w < 2 ^ 31 := by
  unfold hdrSize
  exact Nat.mod_lt _ (by norm_num)

theorem hdrSize_mkHdr (a : Bool) (n : Nat) : hdrSize (mkHdr a n) = n % 2 ^ 31 := by
  unfold hdrSize mkHdr
  cases a <;> simp <;> omega

theorem hdrAlloc_mkHdr (a : Bool) (n : Nat) : hdrAlloc (mkHdr a n) = a := by
  unfold hdrAlloc mkHdr
  cases a <;> simp <;> omega

theorem log2_step (n : Nat) : Nat.log2 n = if 2 ≤ n then Nat.log2 (n / 2) + 1 else 0 := by
  conv_lhs => rw [Nat.log2]

theorem log2fuel_eq_log2 : ∀ fuel n, n < 2 ^ fuel → log2fuel fuel n = Nat.log2 n := by
  intro fuel
  induction fuel with
  | zero =>
      intro n h
      interval_cases n
      rw [log2fuel, log2_step]
      simp
  | succ fuel ih =>
      intro n h
      by_cases h2 : 2 ≤ n
      · conv_rhs => rw [log2_step]
        rw [if_pos h2, log2fuel, if_pos h2, ih (n / 2) (by omega)]
      · conv_rhs => rw [log2_step]
        rw [if_neg h2, log2fuel, if_neg h2]

theorem logBaseTwo_eq_log2 (n : Nat) (h : n < 2 ^ 32) : logBaseTwo n = Nat.log2 n :=
  log2fuel_eq_log2 32 n h

theorem segListIndex_le (n : Nat) : segListIndex n ≤ 10 := by
  unfold segListIndex TOTALNUMLIST
  dsimp only
  split <;> omega

/-! ## Claim C6: the size-class function -/

/-- Claim C6 counterexample: `segListIndex` is not clamped below at 0;
at input 8 it returns -2, which differs from the claimed clamped
value `specClass 8 = 0` and lies outside the claimed range [0, 10]. -/
theorem segListIndex_no_lower_clamp :
    segListIndex 8 = -2 ∧ segListIndex 8 ≠ specClass 8 ∧ ¬(0 ≤ segListIndex 8) := by
  have h8 : Nat.log2 8 = 3 := by
    rw [log2_step, log2_step, log2_step, log2_step]
    norm_num
  refine ⟨?_, ?_, ?_⟩ <;>
    simp [segListIndex, specClass, logBaseTwo, log2fuel_eq_log2 32 8 (by norm_num), h8,
      TOTALNUMLIST] <;> decide

/-- Claim C6 amended: for every `s ≥ 1` (below 2^32, the width of the C
int), `segListIndex s` equals `min(C-1, log2 s - 5)` with no lower
clamp; the result lies in [0, 10] exactly when `s ≥ MIN_BLOCK_SIZE`,
and is negative for `s < 32`. -/
theorem segListIndex_characterization (s : Nat) (h : 1 ≤ s) (hw : s < 2 ^ 32) :
    segListIndex s = min ((TOTALNUMLIST : Int) - 1) ((Nat.log2 s : Int) - 5) ∧
    (MIN_BLOCK_SIZE ≤ s → 0 ≤ segListIndex s ∧ segListIndex s ≤ 10) ∧
    (s < MIN_BLOCK_SIZE → segListIndex s < 0) := by
  have hlog := logBaseTwo_eq_log2 s hw
  refine ⟨?_, fun h32 => ?_, fun hlt => ?_⟩
  · unfold segListIndex TOTALNUMLIST
    dsimp only
    rw [hlog]
    split <;> omega
  · have h5 : 5 ≤ Nat.log2 s := by
      rw [Nat.le_log2 (by omega)]
      calc (2 : Nat) ^ 5 = 32 := by norm_num
        _ ≤ s := h32
    unfold segListIndex TOTALNUMLIST
    dsimp only
    rw [hlog]
    constructor
    · split <;> omega
    · split <;> omega
  · have h5 : Nat.log2 s < 5 := by
      rw [Nat.log2_lt (by omega)]
      unfold MIN_BLOCK_SIZE at hlt
      omega
    unfold segListIndex TOTALNUMLIST
    dsimp only
    rw [hlog]
    split <;> omega

/-- Witness for the amended C6 theorem at `s = 65520`. -/
theorem segListIndex_characterization_witness :
    segListIndex 65520 = min ((TOTALNUMLIST : Int) - 1) ((Nat.log2 65520 : Int) - 5) ∧
    (0 ≤ segListIndex 65520 ∧ segListIndex 65520 ≤ 10) := by
  have h := segListIndex_characterization 65520 (by norm_num) (by norm_num)
  exact ⟨h.1, h.2.1 (by norm_num [MIN_BLOCK_SIZE])⟩

/-! ## Claim C8: the canonical post-init state -/

/-- Claim C8: on a fresh heap, `mm_init` succeeds and the managed
region is the 11-slot seglist head array, the prologue
(allocated, size 8 = header size) at 88, a single free block of
`CHUNKSIZE - OVERHEAD = 65520` bytes at 96 with matching footer, and
the zero-sized allocated epilogue; the free block is the sole member
of the largest-class list (index 10, its links null) and every other
list is empty. -/
theorem mm_init_fresh_layout :
    (mm_init freshState).1 = 0 ∧
    (mm_init freshState).2.segListHead = 0 ∧
    (mm_init freshState).2.prologue = 88 ∧
    (mm_init freshState).2.brk = 8 * TOTALNUMLIST + CHUNKSIZE ∧
    CHUNKSIZE - OVERHEAD = 65520 ∧
    heapWalk (mm_init freshState).2 4 88 =
      [(88, 8, true), (96, CHUNKSIZE - OVERHEAD, false), (65616, 0, true)] ∧
    memGet (mm_init freshState).2 (96 + 65520 - 8) = mkHdr false 65520 ∧
    (segListIndex (CHUNKSIZE - OVERHEAD)).toNat = TOTALNUMLIST - 1 ∧
    memGet (mm_init freshState).2 (8 * (TOTALNUMLIST - 1)) = 96 ∧
    (∀ i < TOTALNUMLIST - 1, memGet (mm_init freshState).2 (8 * i) = 0) ∧
    memGet (mm_init freshState).2 (96 + 8) = 0 ∧
    memGet (mm_init freshState).2 (96 + 16) = 0 := by
  decide

/-! ## Claim C10: init failure behavior -/

/-- Claim C10: `mm_init` returns -1 exactly when the CHUNKSIZE
extension (the second extender call) fails; the first extender call,
which obtains the 11-entry seglist head array, is never checked, so
when it fails init stores the failure sentinel as the array base and
continues, its return value still governed solely by the second
call. -/
theorem mm_init_failure_characterization (s : AState)
    (h : s.brk + 8 * TOTALNUMLIST < FAILADDR) :
    ((mm_init s).1 = -1 ↔ (s.oracle.drop 1).headD true = false) ∧
    (s.oracle.headD true = false → (mm_init s).2.segListHead = FAILADDR) := by
  have hb : ¬(s.brk + 8 * TOTALNUMLIST = FAILADDR) := by omega
  have hb0 : ¬(s.brk = FAILADDR) := by
    have : (0 : Nat) < 8 * TOTALNUMLIST := by norm_num [TOTALNUMLIST]
    omega
  rcases ho : s.oracle with _ | ⟨o1, rest⟩
  · constructor
    · simp [mm_init, mem_sbrk, ho, hb]
    · simp [ho]
  · rcases o1
    · rcases rest with _ | ⟨o2, rest2⟩
      · constructor
        · simp [mm_init, mem_sbrk, ho, hb0]
        · intro
          simp [mm_init, mem_sbrk, ho, hb0]
      · rcases o2
        · constructor
          · simp [mm_init, mem_sbrk, ho]
          · intro
            simp [mm_init, mem_sbrk, ho]
        · constructor
          · simp [mm_init, mem_sbrk, ho, hb0]
          · intro
            simp [mm_init, mem_sbrk, ho, hb0]
    · rcases rest with _ | ⟨o2, rest2⟩
      · constructor
        · simp [mm_init, mem_sbrk, ho, hb]
        · simp [ho]
      · rcases o2
        · constructor
          · simp [mm_init, mem_sbrk, ho]
          · simp [ho]
        · constructor
          · simp [mm_init, mem_sbrk, ho, hb]
          · simp [ho]

/-- Witness for the C10 theorem: on a fresh heap whose extender fails
on the first call and succeeds on the second, init does not fail (the
first failure goes undetected) and the seglist array base is the
failure sentinel. -/
theorem mm_init_failure_witness :
    (mm_init ⟨fun _ => 0, 0, 0, 0, [false, true]⟩).1 ≠ -1 ∧
    (mm_init ⟨fun _ => 0, 0, 0, 0, [false, true]⟩).2.segListHead = FAILADDR := by
  have h := mm_init_failure_characterization ⟨fun _ => 0, 0, 0, 0, [false, true]⟩
    (by norm_num [TOTALNUMLIST, FAILADDR])
  refine ⟨fun hc => ?_, h.2 (by decide)⟩
  have h2 := h.1.mp hc
  simp at h2

/-! ## Claim C4: realloc -/

/-- Claim C4: `mm_realloc` first allocates a block for the new size;
on allocation failure it aborts with a diagnostic (it never returns
a payload on out-of-memory); otherwise it copies
`min(size, old whole-block size)` bytes from the old payload (the
whole block size read from the old header, including header and
footer overhead), frees the old block, and returns the new payload. -/
theorem mm_realloc_characterization (s : AState) (ptr size : Nat) :
    ((mm_malloc s size).1 = none →
      mm_realloc s ptr size = Except.error "ERROR: mm_malloc failed in mm_realloc" ∧
      ∀ r, mm_realloc s ptr size ≠ Except.ok r) ∧
    (∀ newp s1, mm_malloc s size = (some newp, s1) →
      mm_realloc s ptr size =
        Except.ok (newp,
          mm_free (memcpyBytes s1 newp ptr (min size (hdrSize (memGet s1 (ptr - 8))))) ptr)) := by
  constructor
  · intro h
    have he : mm_malloc s size = (none, (mm_malloc s size).2) := by
      rw [← h]
    unfold mm_realloc
    rw [he]
    exact ⟨rfl, fun r hr => by simp at hr⟩
  · intro newp s1 hm
    unfold mm_realloc
    rw [hm]
    dsimp only
    rw [show (if size < hdrSize (memGet s1 (ptr - 8)) then size
        else hdrSize (memGet s1 (ptr - 8))) = min size (hdrSize (memGet s1 (ptr - 8))) by
      split <;> omega]

/-- Witness for the C4 theorem: a concrete successful realloc from the
small heap (the old 32-byte block at 96, whole-block size 32, new
request of 8 bytes, so 8 bytes are copied). -/
theorem mm_realloc_characterization_witness :
    mm_realloc tinyState 104 8 =
      Except.ok (136,
        mm_free (memcpyBytes (mm_malloc tinyState 8).2 136 104
          (min 8 (hdrSize (memGet (mm_malloc tinyState 8).2 (104 - 8))))) 104) := by
  have h := (mm_realloc_characterization tinyState 104 8).2 136 (mm_malloc tinyState 8).2
  have hm : mm_malloc tinyState 8 = (some 136, (mm_malloc tinyState 8).2) := by
    calc mm_malloc tinyState 8
        = ((mm_malloc tinyState 8).1, (mm_malloc tinyState 8).2) := rfl
      _ = (some 136, (mm_malloc tinyState 8).2) := by
          rw [show (mm_malloc tinyState 8).1 = some 136 from by decide]
  exact h hm

/-! ## Lemmas about extend_heap and the adjusted size -/

@[simp] theorem coalesce_brk (s : AState) (b : Nat) : (coalesce s b).2.brk = s.brk := by
  unfold coalesce
  dsimp only
  split
  · rfl
  · split
    · simp
    · split
      · simp
      · simp

@[simp] theorem coalesce_segListHead (s : AState) (b : Nat) :
    (coalesce s b).2.segListHead = s.segListHead := by
  unfold coalesce
  dsimp only
  split
  · rfl
  · split
    · simp
    · split
      · simp
      · simp

@[simp] theorem coalesce_oracle (s : AState) (b : Nat) :
    (coalesce s b).2.oracle = s.oracle := by
  unfold coalesce
  dsimp only
  split
  · rfl
  · split
    · simp
    · split
      · simp
      · simp

theorem extend_heap_zero (s : AState) (w : Nat) (c : Bool) (h0 : w * 8 % 2 ^ 32 = 0) :
    extend_heap s w c = (none, s) := by
  unfold extend_heap
  rw [if_pos h0]

theorem extend_heap_fail (s : AState) (w : Nat) (c : Bool)
    (h0 : ¬w * 8 % 2 ^ 32 = 0) (hor : s.oracle.headD true = false) :
    extend_heap s w c = (none, { s with oracle := s.oracle.tail }) := by
  obtain ⟨m, bk, sg, pr, orc⟩ := s
  rcases orc with _ | ⟨o1, rest⟩
  · simp at hor
  · rcases o1
    · unfold extend_heap mem_sbrk
      rw [if_neg h0]
      simp
    · simp at hor

theorem extend_heap_badbrk (s : AState) (w : Nat) (c : Bool)
    (h0 : ¬w * 8 % 2 ^ 32 = 0) (hbrk : s.brk = FAILADDR) (hor : s.oracle.headD true = true) :
    extend_heap s w c =
      (none, { s with brk := s.brk + w * 8 % 2 ^ 32, oracle := s.oracle.tail }) := by
  obtain ⟨m, bk, sg, pr, orc⟩ := s
  rcases orc with _ | ⟨o1, rest⟩
  · unfold extend_heap mem_sbrk
    rw [if_neg h0]
    dsimp only at hbrk ⊢
    rw [if_pos hbrk]
    rfl
  · rcases o1
    · simp at hor
    · unfold extend_heap mem_sbrk
      rw [if_neg h0]
      dsimp only at hbrk ⊢
      simp only [ite_true, List.tail_cons]
      rw [if_pos hbrk]

theorem extend_heap_succ (s : AState) (w : Nat) (c : Bool)
    (h0 : ¬w * 8 % 2 ^ 32 = 0) (hbrk : ¬s.brk = FAILADDR) (hor : s.oracle.headD true = true) :
    extend_heap s w c =
      (let size := w * 8 % 2 ^ 32
       let t := AState.mk s.mem (s.brk + size) s.segListHead s.prologue s.oracle.tail
       let block := s.brk - 8
       let t := memSet t block (setHdrAlloc (memGet t block) false)
       let t := memSet t block (setHdrSize (memGet t block) size)
       let t := memSet t (get_footer t block) (setHdrAlloc (memGet t (get_footer t block)) false)
       let t := memSet t (get_footer t block)
         (setHdrSize (memGet t (get_footer t block)) (hdrSize (memGet t block)))
       let ne := get_footer t block + 8
       let t := memSet t ne (setHdrAlloc (memGet t ne) true)
       let t := memSet t ne (setHdrSize (memGet t ne) 0)
       let t := list_push t block (segListIndex (hdrSize (memGet t block))).toNat
       if c then (some (coalesce t block).1, (coalesce t block).2) else (some block, t)) := by
  obtain ⟨m, bk, sg, pr, orc⟩ := s
  rcases orc with _ | ⟨o1, rest⟩
  · unfold extend_heap mem_sbrk
    rw [if_neg h0]
    dsimp only at hbrk ⊢
    rw [if_neg hbrk]
    rfl
  · rcases o1
    · simp at hor
    · unfold extend_heap mem_sbrk
      rw [if_neg h0]
      dsimp only at hbrk ⊢
      simp only [ite_true, List.tail_cons]
      rw [if_neg hbrk]

theorem extend_heap_some_brk (s : AState) (w : Nat) (c : Bool) (b : Nat) (s1 : AState)
    (h : extend_heap s w c = (some b, s1)) : s1.brk = s.brk + w * 8 % 2 ^ 32 := by
  by_cases h0 : w * 8 % 2 ^ 32 = 0
  · rw [extend_heap_zero s w c h0] at h
    simp at h
  · rcases hor : s.oracle.headD true
    · rw [extend_heap_fail s w c h0 hor] at h
      simp at h
    · by_cases hbrk : s.brk = FAILADDR
      · rw [extend_heap_badbrk s w c h0 hbrk hor] at h
        simp at h
      · rw [extend_heap_succ s w c h0 hbrk hor] at h
        dsimp only at h
        rcases c
        · rw [if_neg (by simp)] at h
          obtain ⟨h1, h2⟩ := Prod.mk.injEq .. ▸ h
          rw [← h2]
          simp
        · rw [if_pos rfl] at h
          obtain ⟨h1, h2⟩ := Prod.mk.injEq .. ▸ h
          rw [← h2]
          simp

theorem codeAsize_ge (u : Nat) : MIN_BLOCK_SIZE ≤ codeAsize u := by
  unfold codeAsize MIN_BLOCK_SIZE
  dsimp only
  split <;> omega

theorem codeAsize_dvd (u : Nat) : 8 ∣ codeAsize u := by
  unfold codeAsize MIN_BLOCK_SIZE OVERHEAD
  dsimp only
  split <;> omega

theorem codeAsize_lt (u : Nat) : codeAsize u < 2 ^ 32 := by
  unfold codeAsize MIN_BLOCK_SIZE OVERHEAD
  dsimp only
  split <;> omega

theorem codeAsize_eq_spec (u : Nat) (h : u + 24 ≤ 2 ^ 32) : codeAsize u = specAsize u := by
  unfold codeAsize specAsize align8 MIN_BLOCK_SIZE OVERHEAD
  dsimp only
  split <;> omega

/-! ## Claim C1: the structure of mm_malloc -/

/-- Claim C1, amended for the 32-bit truncation of the adjusted size:
a zero request returns null without modifying the heap; otherwise
the adjusted size `codeAsize u` is a positive multiple of 8, at
least MIN_BLOCK_SIZE, and equals the claimed
`max(MIN_BLOCK_SIZE, align8(u + OVERHEAD))` whenever that value fits
in 32 bits (`u + 24 ≤ 2^32`).  If `codeAsize u ≤ 96` the allocator
first extends the heap by exactly `codeAsize u` bytes without
coalescing, placing into the fresh block on success and returning
its payload; on extender failure (and always when
`codeAsize u > 96`) it falls to `malloc_slow`, which runs the
first-fit search, placing on a hit; on a miss it extends by exactly
`max(codeAsize u, CHUNKSIZE)` bytes with coalescing, placing on
success and returning null exactly when that extension fails. -/
theorem mm_malloc_characterization (s : AState) (u : Nat) :
    mm_malloc s 0 = (none, s) ∧
    (¬u = 0 →
      MIN_BLOCK_SIZE ≤ codeAsize u ∧ 8 ∣ codeAsize u ∧
      (u + 24 ≤ 2 ^ 32 → codeAsize u = specAsize u) ∧
      (codeAsize u ≤ 96 →
        (∀ b s1, extend_heap s (codeAsize u / 8) false = (some b, s1) →
          mm_malloc s u = (some (b + 8), place s1 b (codeAsize u)) ∧
          s1.brk = s.brk + codeAsize u) ∧
        (∀ s1, extend_heap s (codeAsize u / 8) false = (none, s1) →
          mm_malloc s u = malloc_slow s1 (codeAsize u))) ∧
      (96 < codeAsize u → mm_malloc s u = malloc_slow s (codeAsize u)) ∧
      (∀ t : AState,
        (∀ b, find_fit t (codeAsize u) = some b →
          malloc_slow t (codeAsize u) = (some (b + 8), place t b (codeAsize u))) ∧
        (find_fit t (codeAsize u) = none →
          (∀ b s1, extend_heap t (max (codeAsize u) CHUNKSIZE / 8) true = (some b, s1) →
            malloc_slow t (codeAsize u) = (some (b + 8), place s1 b (codeAsize u)) ∧
            s1.brk = t.brk + max (codeAsize u) CHUNKSIZE) ∧
          (∀ s1, extend_heap t (max (codeAsize u) CHUNKSIZE / 8) true = (none, s1) →
            malloc_slow t (codeAsize u) = (none, s1))))) := by
  have hdvd := codeAsize_dvd u
  have hlt := codeAsize_lt u
  have hge := codeAsize_ge u
  have hc8 : codeAsize u / 8 * 8 % 2 ^ 32 = codeAsize u := by
    rw [Nat.div_mul_cancel hdvd]
    exact Nat.mod_eq_of_lt hlt
  have hmdvd : 8 ∣ max (codeAsize u) CHUNKSIZE := by
    rw [Nat.max_def]
    split
    · exact ⟨8192, rfl⟩
    · exact hdvd
  have hmlt : max (codeAsize u) CHUNKSIZE < 2 ^ 32 :=
    Nat.max_lt.mpr ⟨hlt, by norm_num [CHUNKSIZE]⟩
  have hm8 : max (codeAsize u) CHUNKSIZE / 8 * 8 % 2 ^ 32 = max (codeAsize u) CHUNKSIZE := by
    rw [Nat.div_mul_cancel hmdvd]
    exact Nat.mod_eq_of_lt hmlt
  have hite : (if codeAsize u > CHUNKSIZE then codeAsize u else CHUNKSIZE) =
      max (codeAsize u) CHUNKSIZE := by
    split <;> omega
  refine ⟨rfl, fun hu => ⟨hge, hdvd, codeAsize_eq_spec u, fun h96 => ⟨?_, ?_⟩, fun h96 => ?_, fun t => ⟨?_, fun hf => ⟨?_, ?_⟩⟩⟩⟩
  · intro b s1 he
    constructor
    · unfold mm_malloc
      rw [if_neg hu]
      dsimp only
      rw [if_pos h96, he]
    · rw [extend_heap_some_brk s _ false b s1 he, hc8]
  · intro s1 he
    unfold mm_malloc
    rw [if_neg hu]
    dsimp only
    rw [if_pos h96, he]
  · unfold mm_malloc
    rw [if_neg hu]
    dsimp only
    rw [if_neg (by omega)]
  · intro b hf
    unfold malloc_slow
    rw [hf]
  · intro b s1 he
    constructor
    · unfold malloc_slow
      rw [hf]
      dsimp only
      rw [hite, he]
    · rw [extend_heap_some_brk t _ true b s1 he, hm8]
  · intro s1 he
    unfold malloc_slow
    rw [hf]
    dsimp only
    rw [hite, he]

/-- Claim C1 counterexample, exhibiting the 32-bit truncation: at
`u = 2^32 - 23` the claimed adjusted size is `2^32` (far above the
fast-path bound 96 and above the only free block's size 32, so under
the claim the allocator would search the lists, miss, and extend by
`max(2^32, CHUNKSIZE) = 2^32` bytes or return null), yet the code
computes `codeAsize = 32`, takes the small-request fast path,
extends the heap by only 32 bytes and returns a payload. -/
theorem mm_malloc_truncation_counterexample :
    specAsize (2 ^ 32 - 23) = 2 ^ 32 ∧
    96 < specAsize (2 ^ 32 - 23) ∧
    memGet tinyState 96 = mkHdr false 32 ∧
    codeAsize (2 ^ 32 - 23) = 32 ∧
    (mm_malloc tinyState (2 ^ 32 - 23)).1 = some 136 ∧
    (mm_malloc tinyState (2 ^ 32 - 23)).2.brk = tinyState.brk + 32 ∧
    32 ≠ specAsize (2 ^ 32 - 23) := by
  refine ⟨by decide, by decide, by decide, by decide, by decide, by decide, by decide⟩

/-- Witness for the amended C1 theorem: the fast-path success case at
`tinyState` with `u = 10` (adjusted size 32). -/
theorem mm_malloc_characterization_witness :
    mm_malloc tinyState 10 =
      (some (128 + 8), place (extend_heap tinyState (codeAsize 10 / 8) false).2 128
        (codeAsize 10)) ∧
    (extend_heap tinyState (codeAsize 10 / 8) false).2.brk = tinyState.brk + codeAsize 10 := by
  have h := ((mm_malloc_characterization tinyState 10).2 (by decide)).2.2.2.1 (by decide)
  have he : extend_heap tinyState (codeAsize 10 / 8) false =
      (some 128, (extend_heap tinyState (codeAsize 10 / 8) false).2) := by
    calc extend_heap tinyState (codeAsize 10 / 8) false
        = ((extend_heap tinyState (codeAsize 10 / 8) false).1,
           (extend_heap tinyState (codeAsize 10 / 8) false).2) := rfl
      _ = (some 128, (extend_heap tinyState (codeAsize 10 / 8) false).2) := by
          rw [show (extend_heap tinyState (codeAsize 10 / 8) false).1 = some 128 from by decide]
  exact h.1 128 (extend_heap tinyState (codeAsize 10 / 8) false).2 he

/-! ## Claim C9: fast-path extender failure falls through -/

/-- Claim C9: for a request whose adjusted size is at most 96, when
the fast-path heap extension fails (first oracle entry false),
mm_malloc does not return null immediately: it continues with the
first-fit search over the segregated lists (in the state left by the
failed extension) and then the `max(asize, CHUNKSIZE)` extension; a
first-fit hit still returns a payload, and on a miss the result is
null exactly when that final extension also fails. -/
theorem mm_malloc_fastpath_fallthrough (s : AState) (u : Nat)
    (hu : ¬u = 0) (h96 : codeAsize u ≤ 96)
    (hor : s.oracle.headD true = false) (hbrk : ¬s.brk = FAILADDR) :
    mm_malloc s u = malloc_slow { s with oracle := s.oracle.tail } (codeAsize u) ∧
    (∀ b, find_fit { s with oracle := s.oracle.tail } (codeAsize u) = some b →
      (mm_malloc s u).1 = some (b + 8)) ∧
    (find_fit { s with oracle := s.oracle.tail } (codeAsize u) = none →
      ((mm_malloc s u).1 = none ↔ (s.oracle.tail.headD true) = false)) := by
  have hdvd := codeAsize_dvd u
  have hge := codeAsize_ge u
  have hlt := codeAsize_lt u
  have h0 : ¬codeAsize u / 8 * 8 % 2 ^ 32 = 0 := by
    rw [Nat.div_mul_cancel hdvd, Nat.mod_eq_of_lt hlt]
    unfold MIN_BLOCK_SIZE at hge
    omega
  have he := extend_heap_fail s (codeAsize u / 8) false h0 hor
  have h1 : mm_malloc s u = malloc_slow { s with oracle := s.oracle.tail } (codeAsize u) := by
    unfold mm_malloc
    rw [if_neg hu]
    dsimp only
    rw [if_pos h96, he]
  refine ⟨h1, fun b hf => ?_, fun hf => ?_⟩
  · rw [h1]
    unfold malloc_slow
    rw [hf]
  · rw [h1]
    unfold malloc_slow
    rw [hf]
    dsimp only
    have hite : (if codeAsize u > CHUNKSIZE then codeAsize u else CHUNKSIZE) = CHUNKSIZE := by
      rw [if_neg (by unfold CHUNKSIZE; omega)]
    rw [hite]
    have h0c : ¬CHUNKSIZE / 8 * 8 % 2 ^ 32 = 0 := by norm_num [CHUNKSIZE]
    rcases hor2 : ({ s with oracle := s.oracle.tail } : AState).oracle.headD true
    · rw [extend_heap_fail _ _ true h0c hor2]
      simp only at hor2
      simp [hor2]
    · rw [extend_heap_succ _ _ true h0c (by exact hbrk) hor2]
      simp only at hor2
      simp [hor2]

/-- Witness for the C9 theorem: `tinyState` with an extender that
fails twice; the request for 10 bytes takes the fast path, the
extension fails, the first-fit search finds the free 32-byte block
at 96 and its payload 104 is returned. -/
theorem mm_malloc_fastpath_fallthrough_witness :
    mm_malloc { tinyState with oracle := [false, false] } 10 =
      malloc_slow { { tinyState with oracle := [false, false] }
        with oracle := ([false, false] : List Bool).tail } (codeAsize 10) ∧
    (mm_malloc { tinyState with oracle := [false, false] } 10).1 = some (96 + 8) := by
  have h := mm_malloc_fastpath_fallthrough { tinyState with oracle := [false, false] } 10
    (by decide) (by decide) (by decide) (by decide)
  refine ⟨h.1, h.2.1 96 ?_⟩
  decide

/-! ## Lemmas for the read-modify-write collapse of bitfield stores -/

theorem memGet_memSet_same (t : AState) (a v : Nat) : memGet (memSet t a v) a = v := by
  simp [memGet_memSet]

theorem memGet_memSet_ne (t : AState) (a v x : Nat) (h : ¬x = a) :
    memGet (memSet t a v) x = memGet t x := by
  simp [memGet_memSet, h]

theorem mkHdr_mod (a : Bool) (n : Nat) : mkHdr a (n % 2 ^ 31) = mkHdr a n := by
  unfold mkHdr
  congr 1
  omega

theorem setHdrAlloc_setHdrSize (w n : Nat) (a : Bool) :
    setHdrAlloc (setHdrSize w n) a = mkHdr a n := by
  unfold setHdrAlloc setHdrSize
  rw [hdrSize_mkHdr, mkHdr_mod]

theorem setHdrSize_setHdrAlloc (w n : Nat) (a : Bool) :
    setHdrSize (setHdrAlloc w a) n = mkHdr a n := by
  unfold setHdrAlloc setHdrSize
  rw [hdrAlloc_mkHdr]

/-- Two consecutive bitfield stores to the same word, size field first
then allocated flag, collapse to one full-word store. -/
theorem write_size_alloc (t : AState) (a n : Nat) (al : Bool) :
    memSet (memSet t a (setHdrSize (memGet t a) n)) a
      (setHdrAlloc (memGet (memSet t a (setHdrSize (memGet t a) n)) a) al) =
    memSet t a (mkHdr al n) := by
  rw [memGet_memSet_same, memSet_override, setHdrAlloc_setHdrSize]

/-- Two consecutive bitfield stores to the same word, allocated flag
first then size field, collapse to one full-word store. -/
theorem write_alloc_size (t : AState) (a n : Nat) (al : Bool) :
    memSet (memSet t a (setHdrAlloc (memGet t a) al)) a
      (setHdrSize (memGet (memSet t a (setHdrAlloc (memGet t a) al)) a) n) =
    memSet t a (mkHdr al n) := by
  rw [memGet_memSet_same, memSet_override, setHdrSize_setHdrAlloc]

theorem hdrSize_setHdrAlloc (w : Nat) (a : Bool) : hdrSize (setHdrAlloc w a) = hdrSize w := by
  unfold setHdrAlloc
  rw [hdrSize_mkHdr]
  exact Nat.mod_eq_of_lt (hdrSize_lt w)

/-! ## Claim C3: place -/

/-- Helper: `place` equals the claim-level `placeSpec` composition
(split with allocated header/footer of size `asize` and a pushed
residual free block, or pop-and-mark with no split). -/
theorem place_spec_equiv (s : AState) (b asize : Nat)
    (h32 : MIN_BLOCK_SIZE ≤ asize)
    (hle : asize ≤ hdrSize (memGet s b))
    (hstab : memGet (list_pop s b (segListIndex (hdrSize (memGet s b))).toNat) b
      = memGet s b) :
    place s b asize = placeSpec s b asize := by
  have h31 : asize < 2 ^ 31 := lt_of_le_of_lt hle (hdrSize_lt _)
  have hH31 := hdrSize_lt (memGet s b)
  have hr31 : hdrSize (memGet s b) - asize < 2 ^ 31 := by omega
  unfold MIN_BLOCK_SIZE at h32
  unfold place placeSpec
  dsimp only
  have hm64 : asize % 2 ^ 64 = asize := Nat.mod_eq_of_lt (by omega)
  rw [hm64]
  have hsplit : (hdrSize (memGet s b) + 2 ^ 64 - asize) % 2 ^ 64
      = hdrSize (memGet s b) - asize := by omega
  rw [hsplit]
  by_cases hr : MIN_BLOCK_SIZE ≤ hdrSize (memGet s b) - asize
  · rw [if_pos hr, if_pos hr]
    unfold MIN_BLOCK_SIZE at hr
    set s1 := list_pop s b (segListIndex (hdrSize (memGet s b))).toNat with hs1
    rw [write_size_alloc s1 b asize true]
    set t2 := memSet s1 b (mkHdr true asize) with ht2
    have ha2 : get_footer t2 b = b + asize - 8 := by
      rw [ht2]
      unfold get_footer
      rw [memGet_memSet_same, hdrSize_mkHdr, Nat.mod_eq_of_lt h31]
    rw [ha2]
    have ha3 : get_footer (memSet t2 (b + asize - 8)
        (setHdrSize (memGet t2 (b + asize - 8)) asize)) b = b + asize - 8 := by
      unfold get_footer
      rw [memGet_memSet, if_neg (by omega : ¬b = b + asize - 8), ht2, memGet_memSet_same,
        hdrSize_mkHdr, Nat.mod_eq_of_lt h31]
    rw [ha3, write_size_alloc t2 (b + asize - 8) asize true]
    set t3 := memSet t2 (b + asize - 8) (mkHdr true asize) with ht3
    have h5 : hdrSize (memGet t3 b) = asize := by
      rw [ht3, memGet_memSet, if_neg (by omega : ¬b = b + asize - 8), ht2, memGet_memSet_same,
        hdrSize_mkHdr]
      exact Nat.mod_eq_of_lt h31
    rw [h5]
    rw [write_size_alloc t3 (b + asize) (hdrSize (memGet s b) - asize) false]
    set t4 := memSet t3 (b + asize) (mkHdr false (hdrSize (memGet s b) - asize)) with ht4
    have ha7 : get_footer t4 (b + asize)
        = b + asize + (hdrSize (memGet s b) - asize) - 8 := by
      rw [ht4]
      unfold get_footer
      rw [memGet_memSet_same, hdrSize_mkHdr, Nat.mod_eq_of_lt hr31]
    rw [ha7]
    have ha8 : get_footer (memSet t4 (b + asize + (hdrSize (memGet s b) - asize) - 8)
        (setHdrSize (memGet t4 (b + asize + (hdrSize (memGet s b) - asize) - 8))
          (hdrSize (memGet s b) - asize))) (b + asize)
        = b + asize + (hdrSize (memGet s b) - asize) - 8 := by
      unfold get_footer
      rw [memGet_memSet,
        if_neg (by omega : ¬b + asize = b + asize + (hdrSize (memGet s b) - asize) - 8),
        ht4, memGet_memSet_same, hdrSize_mkHdr, Nat.mod_eq_of_lt hr31]
    rw [ha8, write_size_alloc t4 (b + asize + (hdrSize (memGet s b) - asize) - 8)
      (hdrSize (memGet s b) - asize) false]
    set t5 := memSet t4 (b + asize + (hdrSize (memGet s b) - asize) - 8)
      (mkHdr false (hdrSize (memGet s b) - asize)) with ht5
    have h9 : hdrSize (memGet t5 (b + asize)) = hdrSize (memGet s b) - asize := by
      rw [ht5, memGet_memSet,
        if_neg (by omega : ¬b + asize = b + asize + (hdrSize (memGet s b) - asize) - 8),
        ht4, memGet_memSet_same, hdrSize_mkHdr]
      exact Nat.mod_eq_of_lt hr31
    rw [h9]
  · rw [if_neg hr, if_neg hr]
    have ha : get_footer
        (memSet (list_pop s b (segListIndex (hdrSize (memGet s b))).toNat) b
          (setHdrAlloc
            (memGet (list_pop s b (segListIndex (hdrSize (memGet s b))).toNat) b) true)) b
        = b + hdrSize (memGet s b) - 8 := by
      unfold get_footer
      rw [memGet_memSet_same, hdrSize_setHdrAlloc, hstab]
    rw [ha]

/-- Claim C3: for a block `b` with target size `asize ≤ size(b)` (and
`asize` at least MIN_BLOCK_SIZE, as at every call site, with `b`'s
header undisturbed by its own unlinking), `place` behaves exactly as
the claim states: with residual `r = size(b) - asize`, if
`r ≥ MIN_BLOCK_SIZE` it pops `b` from class(size(b)), writes an
allocated header and footer of size `asize`, initializes at offset
`asize` a free block of size `r` with matching header and footer and
pushes it onto class(r); otherwise it pops `b` and marks header and
footer allocated keeping the full size, with no split. -/
theorem place_eq_placeSpec (s : AState) (b asize : Nat)
    (h32 : MIN_BLOCK_SIZE ≤ asize)
    (hle : asize ≤ hdrSize (memGet s b))
    (hstab : memGet (list_pop s b (segListIndex (hdrSize (memGet s b))).toNat) b
      = memGet s b) :
    place s b asize = placeSpec s b asize :=
  place_spec_equiv s b asize h32 hle hstab

/-- Witness for the C3 theorem: the sole free 32-byte block of
`tinyState` placed with `asize = 32` (no-split branch). -/
theorem place_eq_placeSpec_witness :
    place tinyState 96 32 = placeSpec tinyState 96 32 :=
  place_eq_placeSpec tinyState 96 32 (by decide) (by decide) (by decide)

theorem hdrSize_setHdrSize (w n : Nat) : hdrSize (setHdrSize w n) = n % 2 ^ 31 := by
  unfold setHdrSize
  exact hdrSize_mkHdr _ _

/-! ## Claim C2: the coalescing engine -/

/-- Helper: `coalesce` equals the claim-level `coalesceSpec` four-case
composition under the local well-formedness assumptions. -/
theorem coalesce_spec_equiv (s : AState) (b : Nat) (h : CoalesceAssumptions s b) :
    coalesce s b = coalesceSpec s b := by
  obtain ⟨hB, hPb, h2, h3, h4⟩ := h
  unfold MIN_BLOCK_SIZE at hB
  unfold coalesce coalesceSpec
  dsimp only
  rcases hpa : hdrAlloc (memGet s (b - 8)) <;>
    rcases hna : hdrAlloc (memGet s (b + hdrSize (memGet s b)))
  · -- case 4: both free
    obtain ⟨hpmin, hhdr, hb1, hn2, hpf3, hp3, hb3, hn3, hsum⟩ := h4 hpa hna
    unfold MIN_BLOCK_SIZE at hpmin
    simp only [Bool.false_eq_true, false_and, and_false, if_false, not_false_eq_true,
      true_and, and_true, not_true_eq_false, ite_false, and_self, ite_true]
    have haddr : b - 8 - hdrSize (memGet s (b - 8)) + 8 = b - hdrSize (memGet s (b - 8)) := by
      omega
    rw [haddr, hhdr, hb1, hn2, hpf3, haddr, hp3, hhdr, hb3, hn3]
    set C3 := list_pop
      (list_pop (list_pop s (b - hdrSize (memGet s (b - 8)))
        (segListIndex (hdrSize (memGet s (b - 8)))).toNat)
        b (segListIndex (hdrSize (memGet s b))).toNat)
      (b + hdrSize (memGet s b))
      (segListIndex (hdrSize (memGet s (b + hdrSize (memGet s b))))).toNat with hC3
    set P := b - hdrSize (memGet s (b - 8)) with hP
    set SUM := hdrSize (memGet s (b - 8)) +
      (hdrSize (memGet s b) + hdrSize (memGet s (b + hdrSize (memGet s b)))) with hSUM
    have hf : get_footer (memSet C3 P (setHdrSize (memGet s P) SUM)) P = P + SUM - 8 := by
      unfold get_footer
      rw [memGet_memSet_same, hdrSize_setHdrSize, Nat.mod_eq_of_lt hsum]
    rw [hf]
    have hv : hdrSize (memGet (memSet C3 P (setHdrSize (memGet s P) SUM)) P) = SUM := by
      rw [memGet_memSet_same, hdrSize_setHdrSize]
      exact Nat.mod_eq_of_lt hsum
    rw [hv]
    have hv2 : hdrSize (memGet (memSet (memSet C3 P (setHdrSize (memGet s P) SUM))
        (P + SUM - 8)
        (setHdrSize (memGet (memSet C3 P (setHdrSize (memGet s P) SUM)) (P + SUM - 8)) SUM))
        P) = SUM := by
      rw [memGet_memSet, if_neg (by omega : ¬P = P + SUM - 8), memGet_memSet_same,
        hdrSize_setHdrSize]
      exact Nat.mod_eq_of_lt hsum
    rw [hv2]
  · -- case 3: previous free, next allocated
    obtain ⟨hpmin, hhdr, hp1, hp2, hb2, hsum⟩ := h3 hpa hna
    unfold MIN_BLOCK_SIZE at hpmin
    simp only [Bool.false_eq_true, false_and, and_false, if_false, not_false_eq_true,
      true_and, and_true, not_true_eq_false, ite_false, and_self, ite_true]
    have haddr : b - 8 - hdrSize (memGet s (b - 8)) + 8 = b - hdrSize (memGet s (b - 8)) := by
      omega
    rw [haddr, hp1, hp2, hhdr, hb2]
    set C2 := list_pop
      (list_pop s b (segListIndex (hdrSize (memGet s b))).toNat)
      (b - hdrSize (memGet s (b - 8)))
      (segListIndex (hdrSize (memGet s (b - 8)))).toNat with hC2
    set P := b - hdrSize (memGet s (b - 8)) with hP
    set SUM := hdrSize (memGet s (b - 8)) + hdrSize (memGet s b) with hSUM
    have hf : get_footer (memSet C2 P (setHdrSize (memGet s P) SUM)) P = P + SUM - 8 := by
      unfold get_footer
      rw [memGet_memSet_same, hdrSize_setHdrSize, Nat.mod_eq_of_lt hsum]
    rw [hf]
    have hv : hdrSize (memGet (memSet C2 P (setHdrSize (memGet s P) SUM)) P) = SUM := by
      rw [memGet_memSet_same, hdrSize_setHdrSize]
      exact Nat.mod_eq_of_lt hsum
    rw [hv]
    have hv2 : hdrSize (memGet (memSet (memSet C2 P (setHdrSize (memGet s P) SUM))
        (P + SUM - 8)
        (setHdrSize (memGet (memSet C2 P (setHdrSize (memGet s P) SUM)) (P + SUM - 8)) SUM))
        P) = SUM := by
      rw [memGet_memSet, if_neg (by omega : ¬P = P + SUM - 8), memGet_memSet_same,
        hdrSize_setHdrSize]
      exact Nat.mod_eq_of_lt hsum
    rw [hv2]
  · -- case 2: previous allocated, next free
    obtain ⟨hn1, hb2, hn2, hsum⟩ := h2 hpa hna
    simp only [Bool.false_eq_true, false_and, and_false, if_false, not_false_eq_true,
      true_and, and_true, not_true_eq_false, ite_false, and_self, ite_true]
    rw [hn1, hb2, hn2]
    set C2 := list_pop
      (list_pop s b (segListIndex (hdrSize (memGet s b))).toNat)
      (b + hdrSize (memGet s b))
      (segListIndex (hdrSize (memGet s (b + hdrSize (memGet s b))))).toNat with hC2
    set SUM := hdrSize (memGet s b) + hdrSize (memGet s (b + hdrSize (memGet s b))) with hSUM
    have hf : get_footer (memSet C2 b (setHdrSize (memGet s b) SUM)) b = b + SUM - 8 := by
      unfold get_footer
      rw [memGet_memSet_same, hdrSize_setHdrSize, Nat.mod_eq_of_lt hsum]
    rw [hf]
    have hv : hdrSize (memGet (memSet C2 b (setHdrSize (memGet s b) SUM)) b) = SUM := by
      rw [memGet_memSet_same, hdrSize_setHdrSize]
      exact Nat.mod_eq_of_lt hsum
    rw [hv]
    have hv2 : hdrSize (memGet (memSet (memSet C2 b (setHdrSize (memGet s b) SUM))
        (b + SUM - 8)
        (setHdrSize (memGet (memSet C2 b (setHdrSize (memGet s b) SUM)) (b + SUM - 8)) SUM))
        b) = SUM := by
      rw [memGet_memSet, if_neg (by omega : ¬b = b + SUM - 8), memGet_memSet_same,
        hdrSize_setHdrSize]
      exact Nat.mod_eq_of_lt hsum
    rw [hv2]
  · -- case 1: both allocated, no-op
    simp only [and_self, ite_true]

/-- Claim C2: under the local well-formedness assumptions of
`CoalesceAssumptions`, `coalesce` performs exactly the four-case
boundary-tag merge of the claim with the neighbors read off the
boundary tags at entry: case 1 returns `b` unchanged; case 2 pops
`b` then `N`, grows `b` by size(N), writes the matching footer and
pushes merged `b`; case 3 pops `b` then `P`, grows `P` by size(b),
writes the footer and pushes and returns `P`; case 4 pops `P`, `b`,
`N`, grows `P` by size(b) + size(N), writes the footer and pushes
and returns `P`; every pop and push uses the class of the block's
size at that instant. -/
theorem coalesce_eq_coalesceSpec (s : AState) (b : Nat) (h : CoalesceAssumptions s b) :
    coalesce s b = coalesceSpec s b :=
  coalesce_spec_equiv s b h

/-- Witness for the C2 theorem: the two adjacent free 32-byte blocks
of `twoFreeState` (coalescing case 2: the previous block is the
allocated prologue, the next block is free). -/
theorem coalesce_eq_coalesceSpec_witness :
    coalesce twoFreeState 96 = coalesceSpec twoFreeState 96 := by
  apply coalesce_eq_coalesceSpec
  unfold CoalesceAssumptions
  dsimp only
  refine ⟨by decide, by decide,
    fun hpa hna => ⟨by decide, by decide, by decide, by decide⟩,
    fun hpa hna => absurd hpa (by decide),
    fun hpa hna => absurd hpa (by decide)⟩

/-! ## Claim C7: the returned region is large enough -/

/-- Claim C7 counterexample: at `u = 2^32` (from the small sane heap)
the allocator returns a non-null payload whose block holds only 16
payload bytes, far fewer than the claimed `u` bytes and than
`align8(u + OVERHEAD) - OVERHEAD = 2^32` (the 32-bit truncation of
the adjusted size is to blame). -/
theorem mm_malloc_payload_counterexample :
    0 < 2 ^ 32 ∧
    (mm_malloc tinyState (2 ^ 32)).1 = some 136 ∧
    payloadBytes (mm_malloc tinyState (2 ^ 32)).2 136 = 16 ∧
    16 < 2 ^ 32 ∧
    align8 (2 ^ 32 + OVERHEAD) - OVERHEAD = 2 ^ 32 := by
  refine ⟨by decide, by decide, by decide, by decide, by decide⟩

theorem hdrAlloc_setHdrAlloc (w : Nat) (a : Bool) : hdrAlloc (setHdrAlloc w a) = a := by
  unfold setHdrAlloc
  exact hdrAlloc_mkHdr _ _

theorem segListIndex_toNat_le (n : Nat) : (segListIndex n).toNat ≤ 10 := by
  have := segListIndex_le n
  omega

theorem list_pop_preserves (s : AState) (rb i a : Nat)
    (h1 : ¬a = slotAddr s i)
    (h2 : ¬a = memGet s (rb + 8) + 16)
    (h3 : ¬a = memGet s (rb + 16) + 8) :
    memGet (list_pop s rb i) a = memGet s a := by
  unfold list_pop
  dsimp only
  split
  · exact memGet_memSet_ne _ _ _ _ h1
  · split
    · rw [memGet_memSet_ne _ _ _ _ h2, memGet_memSet_ne _ _ _ _ h1]
    · split
      · exact memGet_memSet_ne _ _ _ _ h3
      · rw [memGet_memSet_ne _ _ _ _ h3, memGet_memSet_ne _ _ _ _ h2]

theorem list_pop_reads (s : AState) (rb i a : Nat) :
    memGet (list_pop s rb i) a = memGet s a ∨ memGet (list_pop s rb i) a = 0 ∨
    memGet (list_pop s rb i) a = memGet s (rb + 8) ∨
    memGet (list_pop s rb i) a = memGet s (rb + 16) := by
  unfold list_pop
  dsimp only
  split
  · by_cases h : a = slotAddr s i
    · rw [h, memGet_memSet_same]
      right
      left
      rfl
    · rw [memGet_memSet_ne _ _ _ _ h]
      left
      rfl
  · split
    · by_cases h2 : a = memGet s (rb + 8) + 16
      · rw [h2, memGet_memSet_same]
        right
        left
        rfl
      · rw [memGet_memSet_ne _ _ _ _ h2]
        by_cases h1 : a = slotAddr s i
        · rw [h1, memGet_memSet_same]
          right
          right
          left
          rfl
        · rw [memGet_memSet_ne _ _ _ _ h1]
          left
          rfl
    · split
      · by_cases h3 : a = memGet s (rb + 16) + 8
        · rw [h3, memGet_memSet_same]
          right
          left
          rfl
        · rw [memGet_memSet_ne _ _ _ _ h3]
          left
          rfl
      · by_cases h3 : a = memGet s (rb + 16) + 8
        · rw [h3, memGet_memSet_same]
          right
          right
          left
          rfl
        · rw [memGet_memSet_ne _ _ _ _ h3]
          by_cases h2 : a = memGet s (rb + 8) + 16
          · rw [h2, memGet_memSet_same]
            right
            right
            right
            rfl
          · rw [memGet_memSet_ne _ _ _ _ h2]
            left
            rfl

theorem slotAddr_memSet (s : AState) (x v i : Nat) :
    slotAddr (memSet s x v) i = slotAddr s i := rfl

theorem list_push_preserves (s : AState) (nb i a : Nat)
    (h1 : ¬a = slotAddr s i) (h2 : ¬a = nb + 8) (h3 : ¬a = nb + 16)
    (h4 : ¬a = memGet s (slotAddr s i) + 16) :
    memGet (list_push s nb i) a = memGet s a := by
  unfold list_push
  dsimp only
  simp only [slotAddr_memSet]
  split
  · rw [memGet_memSet_ne _ _ _ _ h2, memGet_memSet_ne _ _ _ _ h3,
      memGet_memSet_ne _ _ _ _ h1]
  · rw [memGet_memSet_ne _ _ _ _ h1, memGet_memSet_ne _ _ _ _ h4,
      memGet_memSet_ne _ _ _ _ h3, memGet_memSet_ne _ _ _ _ h2]

theorem list_push_next (s : AState) (nb i : Nat) (h : ¬nb + 8 = slotAddr s i)
    (h5 : ¬nb + 8 = memGet s (slotAddr s i) + 16) :
    memGet (list_push s nb i) (nb + 8) = 0 ∨
    memGet (list_push s nb i) (nb + 8) = memGet s (slotAddr s i) := by
  unfold list_push
  dsimp only
  simp only [slotAddr_memSet]
  split
  · rw [memGet_memSet_same]
    left
    rfl
  · rw [memGet_memSet_ne _ _ _ _ h, memGet_memSet_ne _ _ _ _ h5,
      memGet_memSet_ne _ _ _ _ (by omega : ¬nb + 8 = nb + 16), memGet_memSet_same]
    right
    rfl

theorem list_push_prev (s : AState) (nb i : Nat) (h : ¬nb + 16 = slotAddr s i)
    (h4 : ¬nb + 16 = memGet s (slotAddr s i) + 16) :
    memGet (list_push s nb i) (nb + 16) = 0 := by
  unfold list_push
  dsimp only
  simp only [slotAddr_memSet]
  split
  · rw [memGet_memSet_ne _ _ _ _ (by omega : ¬nb + 16 = nb + 8), memGet_memSet_same]
  · rw [memGet_memSet_ne _ _ _ _ h, memGet_memSet_ne _ _ _ _ h4, memGet_memSet_same]

theorem place_hdr (s : AState) (b asize : Nat)
    (hs : PlaceSane s b) (h32 : MIN_BLOCK_SIZE ≤ asize)
    (hle : asize ≤ hdrSize (memGet s b)) :
    hdrAlloc (memGet (place s b asize) b) = true ∧
    asize ≤ hdrSize (memGet (place s b asize) b) := by
  obtain ⟨hseg, hb88, hn16, hp8, hp16, hslots⟩ := hs
  unfold MIN_BLOCK_SIZE at h32
  have h31 : asize < 2 ^ 31 := lt_of_le_of_lt hle (hdrSize_lt _)
  have hH := hdrSize_lt (memGet s b)
  have hk10 : (segListIndex (hdrSize (memGet s b))).toNat ≤ 10 := segListIndex_toNat_le _
  have hsa : slotAddr s (segListIndex (hdrSize (memGet s b))).toNat
      = 8 * (segListIndex (hdrSize (memGet s b))).toNat := by
    unfold slotAddr
    omega
  have hstab : memGet (list_pop s b (segListIndex (hdrSize (memGet s b))).toNat) b
      = memGet s b := by
    apply list_pop_preserves
    · rw [hsa]
      omega
    · have := hn16
      omega
    · have := hp8
      omega
  rw [place_spec_equiv s b asize (by unfold MIN_BLOCK_SIZE; omega) hle hstab]
  unfold placeSpec
  dsimp only
  set s1 := list_pop s b (segListIndex (hdrSize (memGet s b))).toNat with hs1
  by_cases hr : MIN_BLOCK_SIZE ≤ hdrSize (memGet s b) - asize
  · rw [if_pos hr]
    unfold MIN_BLOCK_SIZE at hr
    set T2 := memSet s1 b (mkHdr true asize) with hT2
    set T3 := memSet T2 (b + asize - 8) (mkHdr true asize) with hT3
    set T4 := memSet T3 (b + asize) (mkHdr false (hdrSize (memGet s b) - asize)) with hT4
    set T5 := memSet T4 (b + asize + (hdrSize (memGet s b) - asize) - 8)
      (mkHdr false (hdrSize (memGet s b) - asize)) with hT5
    set k2 := (segListIndex (hdrSize (memGet s b) - asize)).toNat with hk2
    have hk210 : k2 ≤ 10 := segListIndex_toNat_le _
    have hsa5 : slotAddr T5 k2 = 8 * k2 := by
      unfold slotAddr
      rw [hT5, hT4, hT3, hT2, hs1]
      simp [hseg]
    have hT5b : memGet T5 b = mkHdr true asize := by
      rw [hT5, memGet_memSet_ne _ _ _ b (by omega), hT4,
        memGet_memSet_ne _ _ _ b (by omega), hT3,
        memGet_memSet_ne _ _ _ b (by omega), hT2, memGet_memSet_same]
    have hT5slot : memGet T5 (8 * k2) = memGet s1 (8 * k2) := by
      rw [hT5, memGet_memSet_ne _ _ _ _ (by omega), hT4,
        memGet_memSet_ne _ _ _ _ (by omega), hT3,
        memGet_memSet_ne _ _ _ _ (by omega), hT2,
        memGet_memSet_ne _ _ _ _ (by omega)]
    have hslotval : memGet T5 (8 * k2) ≠ b - 16 := by
      rw [hT5slot, hs1]
      rcases list_pop_reads s b (segListIndex (hdrSize (memGet s b))).toNat (8 * k2) with
        h | h | h | h <;> rw [h]
      · exact hslots k2 hk210
      · omega
      · exact hn16
      · exact hp16
    have hpres : memGet (list_push T5 (b + asize) k2) b = memGet T5 b := by
      apply list_push_preserves
      · rw [hsa5]
        omega
      · omega
      · omega
      · rw [hsa5]
        have := hslotval
        omega
    rw [hpres, hT5b]
    constructor
    · exact hdrAlloc_mkHdr _ _
    · rw [hdrSize_mkHdr]
      omega
  · rw [if_neg hr]
    rw [memGet_memSet_ne _ _ _ b (by omega), memGet_memSet_same, hstab]
    constructor
    · exact hdrAlloc_setHdrAlloc _ _
    · rw [hdrSize_setHdrAlloc]
      exact hle

theorem findFitInList_succ (s : AState) (asize fuel q : Nat) :
    findFitInList s asize (fuel + 1) (q + 1) =
      if ¬hdrAlloc (memGet s (q + 1)) ∧ asize ≤ hdrSize (memGet s (q + 1)) then some (q + 1)
      else findFitInList s asize fuel (memGet s (q + 1 + 8)) := rfl

theorem findFitInList_spec (s : AState) (asize : Nat) :
    ∀ fuel p b, findFitInList s asize fuel p = some b →
      hdrAlloc (memGet s b) = false ∧ asize ≤ hdrSize (memGet s b) := by
  intro fuel
  induction fuel with
  | zero =>
      intro p b h
      simp [findFitInList] at h
  | succ fuel ih =>
      intro p b h
      match p with
      | 0 => simp [findFitInList] at h
      | q + 1 =>
          rw [findFitInList_succ] at h
          split at h
          · rename_i hcond
            have hb : q + 1 = b := Option.some.inj h
            subst hb
            exact ⟨by simpa using hcond.1, hcond.2⟩
          · exact ih _ _ h

theorem findFitFrom_spec (s : AState) (asize : Nat) :
    ∀ n i b, findFitFrom s asize n i = some b →
      hdrAlloc (memGet s b) = false ∧ asize ≤ hdrSize (memGet s b) := by
  intro n
  induction n with
  | zero =>
      intro i b h
      simp [findFitFrom] at h
  | succ n ih =>
      intro i b h
      rw [findFitFrom] at h
      split at h
      · rename_i bf hin
        have hb : bf = b := Option.some.inj h
        subst hb
        exact findFitInList_spec s asize _ _ _ hin
      · exact ih _ _ h

theorem find_fit_spec (s : AState) (asize b : Nat) (h : find_fit s asize = some b) :
    hdrAlloc (memGet s b) = false ∧ asize ≤ hdrSize (memGet s b) := by
  unfold find_fit at h
  exact findFitFrom_spec s asize _ _ _ h

theorem list_push_reads (s : AState) (nb i a : Nat) :
    memGet (list_push s nb i) a = memGet s a ∨ memGet (list_push s nb i) a = 0 ∨
    memGet (list_push s nb i) a = nb ∨
    memGet (list_push s nb i) a = memGet s (slotAddr s i) := by
  unfold list_push
  dsimp only
  simp only [slotAddr_memSet]
  split
  · by_cases h2 : a = nb + 8
    · rw [h2, memGet_memSet_same]
      right
      left
      rfl
    · rw [memGet_memSet_ne _ _ _ _ h2]
      by_cases h3 : a = nb + 16
      · rw [h3, memGet_memSet_same]
        right
        left
        rfl
      · rw [memGet_memSet_ne _ _ _ _ h3]
        by_cases h1 : a = slotAddr s i
        · rw [h1, memGet_memSet_same]
          right
          right
          left
          rfl
        · rw [memGet_memSet_ne _ _ _ _ h1]
          left
          rfl
  · by_cases h1 : a = slotAddr s i
    · rw [h1, memGet_memSet_same]
      right
      right
      left
      rfl
    · rw [memGet_memSet_ne _ _ _ _ h1]
      by_cases h4 : a = memGet s (slotAddr s i) + 16
      · rw [h4, memGet_memSet_same]
        right
        right
        left
        rfl
      · rw [memGet_memSet_ne _ _ _ _ h4]
        by_cases h3 : a = nb + 16
        · rw [h3, memGet_memSet_same]
          right
          left
          rfl
        · rw [memGet_memSet_ne _ _ _ _ h3]
          by_cases h2 : a = nb + 8
          · rw [h2, memGet_memSet_same]
            right
            right
            right
            rfl
          · rw [memGet_memSet_ne _ _ _ _ h2]
            left
            rfl


theorem malloc_slow_place (s : AState) (asize p : Nat)
    (hp : (malloc_slow s asize).1 = some p) :
    ∃ t b, slowPlaceArgs s asize = some (t, b) ∧ p = b + 8 ∧
      (malloc_slow s asize).2 = place t b asize := by
  unfold malloc_slow at hp
  unfold malloc_slow slowPlaceArgs
  rcases hff : find_fit s asize with _ | block
  · rw [hff] at hp
    dsimp only at hp ⊢
    rcases hex : extend_heap s ((if asize > CHUNKSIZE then asize else CHUNKSIZE) / 8) true
      with ⟨ro, s2⟩
    rw [hex] at hp
    rcases ro with _ | block2
    · dsimp only at hp
      simp at hp
    · dsimp only at hp ⊢
      exact ⟨s2, block2, rfl, (Option.some.inj hp).symm, rfl⟩
  · rw [hff] at hp
    dsimp only at hp ⊢
    exact ⟨s, block, rfl, (Option.some.inj hp).symm, rfl⟩

theorem mm_malloc_place_decomp (s : AState) (u p : Nat) (hu : ¬u = 0)
    (hp : (mm_malloc s u).1 = some p) :
    ∃ t b, mallocPlaceArgs s u = some (t, b) ∧ p = b + 8 ∧
      (mm_malloc s u).2 = place t b (codeAsize u) := by
  unfold mm_malloc at hp
  unfold mm_malloc mallocPlaceArgs
  rw [if_neg hu] at hp
  rw [if_neg hu, if_neg hu]
  dsimp only at hp ⊢
  by_cases h96 : codeAsize u ≤ 96
  · rw [if_pos h96] at hp
    rw [if_pos h96, if_pos h96]
    rcases hex : extend_heap s (codeAsize u / 8) false with ⟨ro, s2⟩
    rw [hex] at hp
    rcases ro with _ | block
    · dsimp only at hp ⊢
      exact malloc_slow_place s2 (codeAsize u) p hp
    · dsimp only at hp ⊢
      exact ⟨s2, block, rfl, (Option.some.inj hp).symm, rfl⟩
  · rw [if_neg h96] at hp
    rw [if_neg h96, if_neg h96]
    exact malloc_slow_place s (codeAsize u) p hp

/-- Claim C7 (corrected): for `u > 0` in the truncation-free regime
`u + 24 ≤ 2^31`, a non-null payload from `mm_malloc` comes from
placing the adjusted request in some block `b` it selected
(`mallocPlaceArgs`); provided that handed block is sane (no free-list
link or list head aliases its tags) and fits the adjusted request —
as at every call `place` actually receives — the payload region holds
at least `align8(u + OVERHEAD) - OVERHEAD ≥ u` bytes.  (Outside that
regime the bound fails: see the truncation counterexample.) -/
theorem mm_malloc_payload_lower_bound (s t : AState) (u p b : Nat)
    (hu : 0 < u) (htr : u + 24 ≤ 2 ^ 31)
    (hargs : mallocPlaceArgs s u = some (t, b))
    (hsane : PlaceSane t b) (hfit : codeAsize u ≤ hdrSize (memGet t b))
    (hp : (mm_malloc s u).1 = some p) :
    u ≤ align8 (u + OVERHEAD) - OVERHEAD ∧
    align8 (u + OVERHEAD) - OVERHEAD ≤ payloadBytes (mm_malloc s u).2 p := by
  obtain ⟨t2, b2, hargs2, hpb, hs2⟩ := mm_malloc_place_decomp s u p (by omega) hp
  rw [hargs] at hargs2
  obtain ⟨ht2, hb2⟩ := Prod.mk.injEq .. ▸ (Option.some.inj hargs2)
  subst ht2
  subst hb2
  have h32 : MIN_BLOCK_SIZE ≤ codeAsize u := codeAsize_ge u
  obtain ⟨halloc, hsz⟩ := place_hdr t b (codeAsize u) hsane h32 hfit
  rw [hs2, hpb]
  unfold payloadBytes
  have hb8 : b + 8 - 8 = b := by omega
  rw [hb8]
  have hca : align8 (u + OVERHEAD) ≤ codeAsize u := by
    rw [codeAsize_eq_spec u (by omega)]
    unfold specAsize MIN_BLOCK_SIZE
    omega
  have hal1 : u + OVERHEAD ≤ align8 (u + OVERHEAD) := by
    unfold align8
    omega
  unfold OVERHEAD at hca hal1 ⊢
  omega

/-- Witness for C7 at the small sane heap and `u = 8`: the fast path
extends by 32 bytes, hands `place` the fresh block at 128, and the
returned payload at 136 indeed holds `align8(8+16) - 16 = 16 ≥ 8`
bytes. -/
theorem mm_malloc_payload_lower_bound_witness :
    0 < 8 ∧
    mallocPlaceArgs tinyState 8 =
      some ((extend_heap tinyState (codeAsize 8 / 8) false).2, 128) ∧
    8 ≤ align8 (8 + OVERHEAD) - OVERHEAD ∧
    align8 (8 + OVERHEAD) - OVERHEAD ≤ payloadBytes (mm_malloc tinyState 8).2 136 := by
  refine ⟨by decide, by rfl, ?_⟩
  exact mm_malloc_payload_lower_bound tinyState
    ((extend_heap tinyState (codeAsize 8 / 8) false).2) 8 136 128
    (by decide) (by decide) (by rfl)
    ⟨by decide, by decide, by decide, by decide, by decide, by decide⟩
    (by decide) (by decide)
